import Mathlib

set_option autoImplicit false

namespace Mootdx

/-! ## Tabular data model

`mootdx/quotes.py` returns pandas DataFrames built from lists of record-like
mappings.  A row is modelled as an association list from column name to a
string value; a table is its column list plus its rows. -/

abbrev Row : Type := List (String × String)

structure Table where
  cols : List String
  rows : List Row
deriving DecidableEq, Repr

/-- Columns of a list of raw records: each key, in order of first appearance. -/
def colsOf (rows : List Row) : List String :=
  ((rows.map (fun r => r.map Prod.fst)).flatten).eraseDups

/-- Value of column `c` in row `r` (empty string when absent). -/
def getCol (r : Row) (c : String) : String :=
  match r with
  | [] => ""
  | p :: ps => if p.1 == c then p.2 else getCol ps c

/-- Whether row `r` carries a column named `c`. -/
def hasCol (r : Row) (c : String) : Bool :=
  match r with
  | [] => false
  | p :: ps => p.1 == c || hasCol ps c

/-- Overwrite (or append) column `c` of row `r` with value `v`
(pandas `DataFrame.assign`): replaced in place when present, appended at the
end when absent. -/
def setCol (r : Row) (c v : String) : Row :=
  match r with
  | [] => [(c, v)]
  | p :: ps => if p.1 == c then (c, v) :: ps else p :: setCol ps c v

/-- Remove the columns named in `cs` (pandas `DataFrame.drop(axis=1)`). -/
def dropCols (r : Row) (cs : List String) : Row :=
  r.filter (fun p => !cs.contains p.1)

/-! ## check_empty (quotes.py lines 107-121) -/

/-- A Python value as seen by the retry predicate `check_empty`: either a
pandas DataFrame or a plain (non-tabular) value. -/
inductive RVal where
  | df (t : Table)
  | pynone
  | pyint (n : ℤ)
  | pystr (s : String)
  | pylist (xs : List Row)
deriving DecidableEq

/-- check_empty (quotes.py 107-121):
`_empty = value.all().empty if isinstance(value, pd.DataFrame) else not value`.
pandas `DataFrame.all()` reduces along axis 0 and yields a Series indexed by
the frame's columns, so `value.all().empty` holds exactly when the frame has
no columns (whatever its row count); `not value` on the remaining cases is
Python falsiness.  The function also logs a warning through the global
`instance` when the value is empty; the reconnect call there is commented
out in the source, so the returned judgement is the whole behaviour. -/
def check_empty : RVal → Bool
  | .df t => t.cols.isEmpty
  | .pynone => true
  | .pyint n => n == 0
  | .pystr s => s == ""
  | .pylist xs => xs.isEmpty

/-! ## Python string helpers used by ExtQuotes.validate -/

/-- Python `str.split(sep)` on the character list of a string: splits at every
occurrence of `sep`; the empty string yields one empty group. -/
def splitChars (sep : Char) : List Char → List (List Char)
  | [] => [[]]
  | c :: cs =>
    if c = sep then [] :: splitChars sep cs
    else
      match splitChars sep cs with
      | [] => [[c]]
      | g :: gs => (c :: g) :: gs

/-- Python `symbol.split(sep)` as a list of strings. -/
def pySplit (sep : Char) (s : String) : List String :=
  (splitChars sep s.data).map String.mk

/-- Numeric value of a digit string, most significant digit first. -/
def digitsVal (ds : List Char) : ℤ :=
  ds.foldl (fun a c => a * 10 + ((c.toNat : ℤ) - 48)) 0

/-- Python `int(str)` for plain (optionally signed) decimal numerals;
`none` models the `ValueError` raised on any other input. -/
def pyInt? (s : String) : Option ℤ :=
  match s.data with
  | '-' :: ds => if ds ≠ [] ∧ ds.all Char.isDigit then some (-(digitsVal ds)) else none
  | '+' :: ds => if ds ≠ [] ∧ ds.all Char.isDigit then some (digitsVal ds) else none
  | ds => if ds ≠ [] ∧ ds.all Char.isDigit then some (digitsVal ds) else none

/-! ## ExtQuotes.validate (quotes.py 539-557) -/

namespace ExtQuotes

/-- Second half of ExtQuotes.validate (quotes.py 554-557): the final
empty-market check (`if not market: raise ValueError(...)`) followed by
`return int(market), symbol`; `int()` on a non-numeral also raises. -/
def validateFinish (market symbol : String) : Except String (ℤ × String) :=
  if market = "" then .error "ValueError: 市场参数错误, 市场参数不能为空."
  else
    match pyInt? market with
    | some m => .ok (m, symbol)
    | none => .error "ValueError: invalid literal for int() with base 10"

/-- ExtQuotes.validate (quotes.py 539-557).  `market` is the (possibly empty)
market string; a `#` in `symbol` may encode an explicit `market#symbol` pair:
when `market` is empty and `len(symbol.split('#')) > 1` (i.e. the split has a
second part), market and symbol are reassigned to the first two parts. -/
def validate (market symbol : String) : Except String (ℤ × String) :=
  if market = "" then
    match pySplit '#' symbol with
    | p0 :: p1 :: _ => validateFinish p0 p1
    | _ => validateFinish market symbol
  else validateFinish market symbol

end ExtQuotes

/-! ## Market constants -/

/-- Modelled from the spec: `mootdx.consts` is not under src/.  §3 MarketCode:
enumeration SH=1, SZ=0 (standard market). -/
def MARKET_SH : ℤ := 1

/-- Modelled from the spec: `mootdx.consts` is not under src/.  §3 MarketCode:
enumeration SH=1, SZ=0 (standard market). -/
def MARKET_SZ : ℤ := 0

/-! ## Call records: the arguments a facade operation passes to the
protocol client -/

structure SecurityBarsCall where
  category : ℤ
  market : ℤ
  code : String
  start : ℤ
  count : ℤ
deriving DecidableEq, Repr

structure TransactionCall where
  market : ℤ
  code : String
  start : ℤ
  count : ℤ
deriving DecidableEq, Repr

structure HistTransactionCall where
  market : ℤ
  code : String
  start : ℤ
  count : ℤ
  date : ℤ
deriving DecidableEq, Repr

namespace StdQuotes

/-- StdQuotes.bars (quotes.py 185-201): the get_security_bars call it builds.
`offset = (offset, 800)[offset > 800]` clamps the page size to 800.
`get_frequency` and `get_stock_market` live in mootdx.utils (outside src/)
and are taken as parameters. -/
def bars (get_frequency : ℤ → ℤ) (get_stock_market : String → ℤ)
    (symbol : String) (frequency start offset : ℤ) : SecurityBarsCall :=
  let frequency := get_frequency frequency
  let market := get_stock_market symbol
  let offset := if offset > 800 then 800 else offset
  { category := frequency, market := market, code := symbol,
    start := start, count := offset }

/-- StdQuotes.index_bars (quotes.py 246-263): same 800 clamp; the market is
`(MARKET_SZ, MARKET_SH)[symbol[:2] in ["00", "88", "99"]]`. -/
def index_bars (get_frequency : ℤ → ℤ)
    (symbol : String) (frequency start offset : ℤ) : SecurityBarsCall :=
  let frequency := get_frequency frequency
  let offset := if offset > 800 then 800 else offset
  let market := if ["00", "88", "99"].contains (symbol.take 2)
    then MARKET_SH else MARKET_SZ
  { category := frequency, market := market, code := symbol,
    start := start, count := offset }

/-- StdQuotes.index (quotes.py 455-486): body identical to index_bars,
including the 800 clamp. -/
def index (get_frequency : ℤ → ℤ)
    (symbol : String) (frequency start offset : ℤ) : SecurityBarsCall :=
  let frequency := get_frequency frequency
  let offset := if offset > 800 then 800 else offset
  let market := if ["00", "88", "99"].contains (symbol.take 2)
    then MARKET_SH else MARKET_SZ
  { category := frequency, market := market, code := symbol,
    start := start, count := offset }

/-- StdQuotes.transaction (quotes.py 294-308): passes start and offset to
get_transaction_data unchanged — no clamp. -/
def transaction (get_stock_market : String → ℤ)
    (symbol : String) (start offset : ℤ) : TransactionCall :=
  { market := get_stock_market symbol, code := symbol,
    start := start, count := offset }

/-- StdQuotes.transactions (quotes.py 310-327): validates market ∈ {0, 1},
then passes start and offset to get_history_transaction_data unchanged. -/
def transactions (get_stock_market : String → ℤ)
    (symbol : String) (start offset date : ℤ) : Except String HistTransactionCall :=
  if get_stock_market symbol = 0 ∨ get_stock_market symbol = 1 then
    .ok { market := get_stock_market symbol, code := symbol, start := start,
          count := offset, date := date }
  else .error "MootdxValidationException: 市场代码错误, 目前只支持沪深市场"

end StdQuotes

namespace ExtQuotes

/-- ExtQuotes.bars (quotes.py 700-718): resolves (market, symbol) through
validate, then passes `count=offset` to get_instrument_bars unchanged —
there is no 800 clamp on this path. -/
def bars (get_frequency : String → ℤ)
    (frequency market symbol : String) (start offset : ℤ) :
    Except String SecurityBarsCall :=
  let f := get_frequency frequency
  match validate market symbol with
  | .error e => .error e
  | .ok (m, sym) =>
    .ok { category := f, market := m, code := sym, start := start, count := offset }

/-- ExtQuotes.transaction (quotes.py 726-740): count=offset unchanged. -/
def transaction (market symbol : String) (start offset : ℤ) :
    Except String TransactionCall :=
  match validate market symbol with
  | .error e => .error e
  | .ok (m, sym) => .ok { market := m, code := sym, start := start, count := offset }

/-- ExtQuotes.transactions (quotes.py 748-765): count=offset unchanged. -/
def transactions (market symbol : String) (date start offset : ℤ) :
    Except String HistTransactionCall :=
  match validate market symbol with
  | .error e => .error e
  | .ok (m, sym) =>
    .ok { market := m, code := sym, start := start, count := offset, date := date }

end ExtQuotes

/-! ## Session liveness and reconnect (C5) -/

/-- A protocol-client invocation observable in an operation's trace. -/
inductive ClientCall where
  | connect
  | get_security_bars (c : SecurityBarsCall)
  | get_security_quotes (symbols : List (ℤ × String))
deriving DecidableEq

namespace BaseQuotes

/-- BaseQuotes.closed (quotes.py 93-98): True when the transport carries no
`_closed` flag or the flag is set; the session counts as alive only when the
flag exists and is false. -/
def closed (hasClosedFlag closedFlag : Bool) : Bool :=
  !hasClosedFlag || closedFlag

/-- BaseQuotes.reconnect (quotes.py 84-87): `if self.closed:
self.client.connect(*self.bestip)` — the client calls it performs. -/
def reconnect (hasClosedFlag closedFlag : Bool) : List ClientCall :=
  if closed hasClosedFlag closedFlag then [ClientCall.connect] else []

end BaseQuotes

/-- The full client-call trace of one StdQuotes.bars invocation
(quotes.py 185-201): the body computes frequency, market and the clamped
offset and then performs exactly one call, get_security_bars; it never
consults the session state (the two Bool parameters) and never invokes
reconnect. -/
def StdQuotes.bars_trace (get_frequency : ℤ → ℤ) (get_stock_market : String → ℤ)
    (hasClosedFlag closedFlag : Bool)
    (symbol : String) (frequency start offset : ℤ) : List ClientCall :=
  [ClientCall.get_security_bars
    (StdQuotes.bars get_frequency get_stock_market symbol frequency start offset)]

/-! ## StdQuotes.quotes (quotes.py 163-183, C10) -/

/-- A Python `symbol` argument to quotes: None, a single string or a list. -/
inductive PySymbols where
  | pynone
  | str (s : String)
  | list (xs : List String)

/-- Python falsiness of the symbols argument (`if not symbol`). -/
def pyFalsySymbols : PySymbols → Bool
  | .pynone => true
  | .str s => s == ""
  | .list xs => xs.isEmpty

/-- Modelled from the spec: `mootdx.utils.to_data` is not under src/.
§4.5 RecordBatch/Table adapter: a `None` input yields an empty Table (not an
error); a non-empty input is converted row-by-row preserving the
server-supplied order. -/
def to_data : Option (List Row) → Table
  | none => { cols := [], rows := [] }
  | some rows => { cols := colsOf rows, rows := rows }

/-- StdQuotes.quotes (quotes.py 163-183).  Returns the protocol-client trace
together with the resulting table.  `get_stock_markets` (mootdx.utils,
outside src/) and the client call may raise ValidationException, modelled as
`Except.error`; the except branch returns `to_data(None)`. -/
def StdQuotes.quotes
    (get_stock_markets : List String → Except Unit (List (ℤ × String)))
    (client_quotes : List (ℤ × String) → Except Unit (Option (List Row)))
    (symbol : PySymbols) : List ClientCall × Table :=
  if pyFalsySymbols symbol then ([], to_data none)
  else
    let syms := match symbol with
      | .pynone => []
      | .str s => [s]
      | .list xs => xs
    match get_stock_markets syms with
    | .error _ => ([], to_data none)
    | .ok pairs =>
      match client_quotes pairs with
      | .error _ => ([ClientCall.get_security_quotes pairs], to_data none)
      | .ok raw => ([ClientCall.get_security_quotes pairs], to_data raw)

/-! ## pandas.concat and the stock list operations (C3) -/

/-- pandas.concat (third-party) on a list of optional frames: pandas
documents that None entries are dropped silently, that an empty argument
raises ValueError("No objects to concatenate") and an all-None argument
raises ValueError("All objects passed were None"); rows are concatenated in
order. -/
def pdConcat (xs : List (Option Table)) : Except String Table :=
  if xs.isEmpty then .error "No objects to concatenate"
  else
    match xs.filterMap id with
    | [] => .error "All objects passed were None"
    | d :: ds =>
      .ok { cols := ((d :: ds).map Table.cols).flatten.eraseDups,
            rows := ((d :: ds).map Table.rows).flatten }

/-- The standard-market protocol-client surface used by the stock list
operations: get_security_count and get_security_list (market, start). -/
structure HqClient where
  get_security_count : ℤ → ℤ
  get_security_list : ℤ → ℕ → List Row

/-- Python `range(0, counts, 1000)`: the ⌈counts/1000⌉ page starts
0, 1000, 2000, …  (empty when counts ≤ 0). -/
def pageStarts (counts : ℤ) : List ℕ :=
  (List.range ((counts.toNat + 999) / 1000)).map (fun k => 1000 * k)

/-- StdQuotes.stock_count (quotes.py 203-215): market ∈ {0, 1, 2} else
MootdxValidationException; otherwise the client's count. -/
def StdQuotes.stock_count (client : HqClient) (market : ℤ) : Except String ℤ :=
  if market = 0 ∨ market = 1 ∨ market = 2 then
    .ok (client.get_security_count market)
  else .error "MootdxValidationException: 市场代码错误"

/-- One iteration of the StdQuotes.stocks loop (quotes.py 232-234):
`stocks = pandas.concat([stocks, to_data(result)], ignore_index=True)
if start > 1 else to_data(result)` — only the first page (start 0) takes the
else branch. -/
def stocksStep (client : HqClient) (market : ℤ)
    (acc : Except String (Option Table)) (start : ℕ) :
    Except String (Option Table) := do
  let st ← acc
  if start > 1 then
    let t ← pdConcat [st, some (to_data (some (client.get_security_list market start)))]
    return (some t)
  else return (some (to_data (some (client.get_security_list market start))))

/-- StdQuotes.stocks (quotes.py 217-236): market ∈ {0, 1}; fetches the count
and pages through get_security_list in steps of 1000; the accumulator stays
None (and None is returned) when the count is not positive. -/
def StdQuotes.stocks (client : HqClient) (market : ℤ) :
    Except String (Option Table) :=
  if market = 0 ∨ market = 1 then do
    let counts ← StdQuotes.stock_count client market
    if counts > 0 then
      (pageStarts counts).foldl (stocksStep client market) (.ok none)
    else return none
  else .error "MootdxValidationException: 市场代码错误, 目前只支持沪深市场"

/-- StdQuotes.stock_all (quotes.py 238-244): `stocks = None; for m in [0, 1]:
stocks = pandas.concat([stocks, self.stocks(m)], ignore_index=True)` — with
MARKET_SZ = 0 and MARKET_SH = 1 this places the SZ rows before the SH rows. -/
def StdQuotes.stock_all (client : HqClient) : Except String Table := do
  let s0 ← StdQuotes.stocks client 0
  let t0 ← pdConcat [none, s0]
  let s1 ← StdQuotes.stocks client 1
  let t1 ← pdConcat [some t0, s1]
  return t1

/-! ## The tenacity retry decorator on every ExtQuotes operation (C4) -/

/-- The outcome of one attempt of a wrapped remote call: a returned value or
a raised exception. -/
inductive Outcome (α : Type) where
  | ok (v : α)
  | exc
deriving DecidableEq

/-- The retry trigger `retry_if_exception_type() | retry_if_result(check_empty)`
(quotes.py 563 and the other seven decorators): retry on any exception
(retry_if_exception_type with no argument matches Exception) or on a result
judged empty by check_empty. -/
def needsRetry {α : Type} (isEmpty : α → Bool) : Outcome α → Bool
  | .ok v => isEmpty v
  | .exc => true

/-- tenacity `wait_random(min=1, max=10)` (third-party):
`wait_min + random() * (wait_max - wait_min)` with `random() ∈ [0, 1)`. -/
def waitRandom (lo hi r : ℚ) : ℚ := lo + r * (hi - lo)

/-- The tenacity attempt loop (third-party) for the decorator arguments used
by ExtQuotes (quotes.py 559-563): `f i` is attempt i's outcome, `rng i` the
random draw for the wait after attempt i, `fuel` the retries still allowed
by stop_after_attempt.  At fuel 0 the final attempt's outcome is returned
whether or not the retry predicate fires, because
`retry_error_callback = return_last_value` hands back the last outcome
(re-raising when it was an exception).
Modelled from the spec: `mootdx.consts.return_last_value` is not under src/;
§4.2: on exhausting attempts the policy does not raise — it returns the last
obtained result (even if empty).
Result: (index of the final attempt made, waits between attempts, final
outcome). -/
def retryLoop {α : Type} (f : ℕ → Outcome α) (isEmpty : α → Bool) (rng : ℕ → ℚ) :
    ℕ → ℕ → ℕ × List ℚ × Outcome α
  | i, 0 => (i, [], f i)
  | i, fuel + 1 =>
    if needsRetry isEmpty (f i) then
      let r := retryLoop f isEmpty rng (i + 1) fuel
      (r.1, waitRandom 1 10 (rng i) :: r.2.1, r.2.2)
    else (i, [], f i)

/-- The @retry decorator instance applied to every ExtQuotes operation:
`stop_after_attempt(3)` means attempt 1 plus at most two retries. -/
def extRetry {α : Type} (f : ℕ → Outcome α) (isEmpty : α → Bool) (rng : ℕ → ℚ) :
    ℕ × List ℚ × Outcome α :=
  retryLoop f isEmpty rng 1 2

/-! ## StdQuotes.get_k_data (quotes.py 426-453): the historical range
resolver (C2, C7, C8) -/

/-- Python `n -= int(n / 2.8)` (quotes.py 436) for n ≥ 0, modelled exactly:
2.8 = 14/5, so int(n / 2.8) = ⌊5n/14⌋; for day counts in range the float
quotient rounds to the same integer. -/
def discount28 (n : ℕ) : ℕ := n - 5 * n / 14

/-- Python `n -= int(n / 3.5)` (quotes.py 437): 3.5 = 7/2, so
int(n / 3.5) = ⌊2n/7⌋. -/
def discount35 (n : ℕ) : ℕ := n - 2 * n / 7

/-- `math.ceil(a / b)` for integer a and positive integer b, computed with
Euclidean integer division. -/
def ceilDiv (a b : ℤ) : ℤ := -(-a / b)

/-- Claim-side (C7's wording): daysSince(today, d) = max(0, today − d). -/
def daysSince (today d : ℤ) : ℤ := max 0 (today - d)

/-- Claim-side (C7's wording): the discount n − int(n / 2.8) on ℤ,
int(n / 2.8) = ⌊5n/14⌋ for n ≥ 0. -/
def specDiscount28 (n : ℤ) : ℤ := n - 5 * n / 14

/-- Claim-side (C7's wording): n − int(n / 3.5) on ℤ. -/
def specDiscount35 (n : ℤ) : ℤ := n - 2 * n / 7

/-- One get_security_bars page request issued by get_k_data. -/
structure KBarsReq where
  category : ℤ
  market : ℤ
  code : String
  start : ℤ
  count : ℕ
deriving DecidableEq, Repr

/-- The protocol-client surface used by get_k_data:
get_security_bars(category, market, code, start, count) → raw records. -/
structure KClient where
  get_security_bars : ℤ → ℤ → String → ℤ → ℕ → List Row

/-- `self.client.to_df(data)` (third-party): raw records to a DataFrame. -/
def to_df (rows : List Row) : Table :=
  { cols := colsOf rows, rows := rows }

/-- The columns get_k_data drops (quotes.py 449). -/
def droppedCols : List String :=
  ["year", "month", "day", "hour", "minute", "datetime"]

/-- quotes.py 447: `data.assign(date=data['datetime'].apply(lambda x:
str(x)[0:10])).assign(code=str(code))`. -/
def assignDateCode (code : String) (r : Row) : Row :=
  setCol (setCol r "date" ((getCol r "datetime").take 10)) "code" code

/-- One row through the post-processing of quotes.py 447-449: assign date
and code, then drop the raw calendar sub-fields. -/
def processRow (code : String) (r : Row) : Row :=
  dropCols (assignDateCode code r) droppedCols

/-- Python string `<` on character lists: lexicographic by code point,
structurally recursive. -/
def charsLt : List Char → List Char → Bool
  | _, [] => false
  | [], _ :: _ => true
  | a :: as, b :: bs =>
    if a.toNat < b.toNat then true
    else if b.toNat < a.toNat then false
    else charsLt as bs

/-- Python `a < b` on strings (code-point lexicographic). -/
def pyLt (a b : String) : Bool := charsLt a.data b.data

/-- Python `a <= b` on strings: the negation of `b < a`. -/
def pyLe (a b : String) : Bool := !charsLt b.data a.data

/-- quotes.py 450: `(data.date >= start_date) & (data.date < end_date)` —
Python string comparison, lexicographic by code point. -/
def keepRow (start_date end_date : String) (r : Row) : Bool :=
  pyLe start_date (getCol r "date") && pyLt (getCol r "date") end_date

/-- quotes.py 448/451: the rows are indexed by their date string and
`sort_index()` sorts ascending — insert one row into a date-sorted list. -/
def insertByDate (r : Row) : List Row → List Row
  | [] => [r]
  | x :: xs =>
    if pyLe (getCol r "date") (getCol x "date") then r :: x :: xs
    else x :: insertByDate r xs

/-- Sort rows ascending by their date column (pandas `sort_index()`). -/
def sortByDate (l : List Row) : List Row := l.foldr insertByDate []

/-- The observable behaviour of one get_k_data call: the page requests it
makes, the raw rows the client returned (concatenated in fetch order), and
the final result. -/
structure KDataRun where
  requests : List KBarsReq
  raw : List Row
  result : Except String Table

/-- StdQuotes.get_k_data (quotes.py 426-453).  `parseDays s` is the day
ordinal of `pd.to_datetime(s)` and `today` that of `datetime.now().date()`
(external calendar collaborators); `get_stock_market` is mootdx.utils
(outside src/).  Stages: day deltas clamped at 0 via
`(abs(first), 0)[first >= 0]`, the non-trading-day discounts, then
`range(math.ceil((last - first) / 800))` pages of 800 daily bars
(frequency 9) fetched at offsets `first + i*800`, `pd.concat` over the
collected frames (raising on an empty list), then the date/code assignment,
column drop, date filter and sort of quotes.py 447-451. -/
def StdQuotes.get_k_data (get_stock_market : String → ℤ)
    (parseDays : String → ℤ) (today : ℤ) (client : KClient)
    (code start_date end_date : String) : KDataRun :=
  let first0 := parseDays end_date - today
  let first1 : ℕ := if 0 ≤ first0 then 0 else first0.natAbs
  let last0 := parseDays start_date - today
  let last1 : ℕ := if 0 ≤ last0 then 0 else last0.natAbs
  let first := discount28 first1
  let last := discount35 last1
  let market := get_stock_market code
  let n := (ceilDiv ((last : ℤ) - (first : ℤ)) 800).toNat
  let reqs : List KBarsReq := (List.range n).map fun (i : ℕ) =>
    { category := 9, market := market, code := code,
      start := (first : ℤ) + (i : ℤ) * 800, count := 800 }
  let pages := (List.range n).map fun (i : ℕ) =>
    to_df (client.get_security_bars 9 market code ((first : ℤ) + (i : ℤ) * 800) 800)
  let raw := (pages.map Table.rows).flatten
  let result : Except String Table :=
    match pdConcat (pages.map some) with
    | .error e => .error e
    | .ok data =>
      let rows2 := (data.rows.map (processRow code)).filter (keepRow start_date end_date)
      .ok { cols := ((data.cols ++ ["date", "code"]).eraseDups).filter
              (fun c => !droppedCols.contains c),
            rows := sortByDate rows2 }
  { requests := reqs, raw := raw, result := result }

/-! ## Theorems -/

theorem data_mk (l : List Char) : (String.mk l).data = l := rfl

theorem splitChars_of_not_mem (sep : Char) (l : List Char) (h : sep ∉ l) :
    splitChars sep l = [l] := by
  induction l with
  | nil => rfl
  | cons c cs ih =>
    simp only [List.mem_cons, not_or] at h
    rw [splitChars, if_neg (fun hc => h.1 hc.symm), ih h.2]

theorem splitChars_append (sep : Char) (pre post : List Char) (h : sep ∉ pre) :
    splitChars sep (pre ++ sep :: post) = pre :: splitChars sep post := by
  induction pre with
  | nil =>
    simp only [List.nil_append]
    rw [splitChars, if_pos rfl]
  | cons c cs ih =>
    simp only [List.mem_cons, not_or] at h
    rw [List.cons_append, splitChars, if_neg (fun hc => h.1 hc.symm), ih h.2]

/-- C9: with empty market, ExtQuotes.validate splits `symbol` on the `#`
separator: for a symbol `pre#post` (one `#`, `pre` a decimal numeral) it
returns `(int(pre), post)`; in particular `validate "" "1#600000"` yields
`(1, "600000")`; and when `symbol` contains no `#` it raises `ValueError`. -/
theorem C9_theorem :
    (∀ (pre post : List Char) (v : ℤ), '#' ∉ pre → '#' ∉ post →
      pyInt? (String.mk pre) = some v →
      ExtQuotes.validate "" (String.mk (pre ++ '#' :: post)) =
        .ok (v, String.mk post)) ∧
    ExtQuotes.validate "" "1#600000" = .ok (1, "600000") ∧
    (∀ symbol : String, '#' ∉ symbol.data →
      ExtQuotes.validate "" symbol =
        .error "ValueError: 市场参数错误, 市场参数不能为空.") := by
  refine ⟨?_, rfl, ?_⟩
  · intro pre post v hpre hpost hv
    have hpre_ne : pre ≠ [] := by
      intro hnil
      subst hnil
      simp [pyInt?] at hv
    have hmkpre : String.mk pre ≠ "" := by
      intro hmk
      apply hpre_ne
      have : (String.mk pre).data = ("" : String).data := by rw [hmk]
      simpa using this
    have hsplit : pySplit '#' (String.mk (pre ++ '#' :: post)) =
        [String.mk pre, String.mk post] := by
      rw [pySplit, data_mk, splitChars_append '#' pre post hpre,
        splitChars_of_not_mem '#' post hpost]
      rfl
    unfold ExtQuotes.validate
    rw [if_pos rfl, hsplit]
    show ExtQuotes.validateFinish (String.mk pre) (String.mk post) =
      .ok (v, String.mk post)
    unfold ExtQuotes.validateFinish
    rw [if_neg hmkpre, hv]
  · intro symbol hsym
    have hsplit : pySplit '#' symbol = [symbol] := by
      rw [pySplit, splitChars_of_not_mem '#' symbol.data hsym]
      rfl
    unfold ExtQuotes.validate
    rw [if_pos rfl, hsplit]
    show ExtQuotes.validateFinish "" symbol = _
    unfold ExtQuotes.validateFinish
    rw [if_pos rfl]

/-- C9 witness: the concrete split for symbol `1#600000`. -/
theorem C9_witness :
    ExtQuotes.validate "" (String.mk (['1'] ++ '#' :: ['6', '0', '0', '0', '0', '0'])) =
      .ok (1, String.mk ['6', '0', '0', '0', '0', '0']) :=
  C9_theorem.1 ['1'] ['6', '0', '0', '0', '0', '0'] 1 (by decide) (by decide) (by decide)

/-- C6 counterexample: a DataFrame with one column and zero rows is NOT
judged empty by check_empty (`value.all()` is indexed by columns, so
`value.all().empty` is false whenever any column exists), contradicting the
claim that every zero-row DataFrame is judged empty. -/
theorem C6_counterexample :
    (Table.mk ["open"] []).rows = [] ∧
    check_empty (RVal.df (Table.mk ["open"] [])) = false :=
  ⟨rfl, rfl⟩

/-- C6 (amended): check_empty judges a result empty iff it is a DataFrame
with no columns (regardless of its rows), or a falsy non-tabular value
(None, zero, empty string, empty list). -/
theorem C6_theorem :
    (∀ t : Table, check_empty (RVal.df t) = true ↔ t.cols = []) ∧
    check_empty RVal.pynone = true ∧
    (∀ n : ℤ, check_empty (RVal.pyint n) = true ↔ n = 0) ∧
    (∀ s : String, check_empty (RVal.pystr s) = true ↔ s = "") ∧
    (∀ xs : List Row, check_empty (RVal.pylist xs) = true ↔ xs = []) := by
  refine ⟨?_, rfl, ?_, ?_, ?_⟩ <;> intro x <;> simp [check_empty]

/-- C1 counterexample: ExtQuotes.bars (one of the claim's bars-style
operations) does not clamp: at requested offset 801 the count passed to
get_instrument_bars is 801, not 800. -/
theorem C1_counterexample :
    ExtQuotes.bars (fun _ => 9) "" "" "1#600000" 0 801 =
      .ok { category := 9, market := 1, code := "600000", start := 0, count := 801 } ∧
    (801 : ℤ) ≠ 800 :=
  ⟨rfl, by decide⟩

/-- C1 (amended): the 800 clamp applies exactly to the three standard-market
k-line operations — for every offset > 800, StdQuotes.bars, index_bars and
index pass count exactly 800 without error; ExtQuotes.bars and the four
transaction operations pass the requested offset through unclamped. -/
theorem C1_theorem (gf : ℤ → ℤ) (gfe : String → ℤ) (gsm : String → ℤ)
    (symbol : String) (frequency start offset : ℤ) (freqE market msymbol : String)
    (date m : ℤ) (sym : String)
    (hoff : offset > 800)
    (hv : ExtQuotes.validate market msymbol = .ok (m, sym)) :
    (StdQuotes.bars gf gsm symbol frequency start offset).count = 800 ∧
    (StdQuotes.index_bars gf symbol frequency start offset).count = 800 ∧
    (StdQuotes.index gf symbol frequency start offset).count = 800 ∧
    (StdQuotes.transaction gsm symbol start offset).count = offset ∧
    (∀ c, StdQuotes.transactions gsm symbol start offset date = .ok c →
      c.count = offset) ∧
    ExtQuotes.bars gfe freqE market msymbol start offset =
      .ok { category := gfe freqE, market := m, code := sym,
            start := start, count := offset } ∧
    ExtQuotes.transaction market msymbol start offset =
      .ok { market := m, code := sym, start := start, count := offset } ∧
    ExtQuotes.transactions market msymbol date start offset =
      .ok { market := m, code := sym, start := start, count := offset,
            date := date } := by
  refine ⟨?_, ?_, ?_, rfl, ?_, ?_, ?_, ?_⟩
  · simp [StdQuotes.bars, hoff]
  · simp [StdQuotes.index_bars, hoff]
  · simp [StdQuotes.index, hoff]
  · intro c hc
    unfold StdQuotes.transactions at hc
    split at hc
    · cases hc
      rfl
    · cases hc
  · unfold ExtQuotes.bars
    rw [hv]
  · unfold ExtQuotes.transaction
    rw [hv]
  · unfold ExtQuotes.transactions
    rw [hv]

/-- C1 witness: at offset 801 the StdQuotes.bars count is clamped to 800. -/
theorem C1_witness :
    (StdQuotes.bars (fun x => x) (fun _ => 0) "000001" 9 0 801).count = 800 :=
  (C1_theorem (fun x => x) (fun _ => 9) (fun _ => 0) "000001" 9 0 801
    "day" "1" "600000" 20170209 1 "600000" (by decide) rfl).1

/-- C5 counterexample: with a dead session (transport closed flag set, so
BaseQuotes.closed is true), StdQuotes.bars still performs its remote call
with zero invocations of reconnect — no connect call in its trace — whereas
the claim requires reconnection to be invoked exactly once. -/
theorem C5_counterexample :
    BaseQuotes.closed true true = true ∧
    (StdQuotes.bars_trace (fun x => x) (fun _ => 0) true true
        "000001" 9 0 800).count ClientCall.connect = 0 ∧
    (0 : ℕ) ≠ 1 :=
  ⟨rfl, rfl, by decide⟩

/-- C5 (amended): BaseQuotes.reconnect, when explicitly invoked, issues
exactly one connect iff the transport is closed; but StdQuotes.bars never
invokes it — its trace is the single get_security_bars call regardless of
session liveness, so no facade operation triggers reconnection. -/
theorem C5_theorem (gf : ℤ → ℤ) (gsm : String → ℤ)
    (hasClosedFlag closedFlag : Bool)
    (symbol : String) (frequency start offset : ℤ) :
    (StdQuotes.bars_trace gf gsm hasClosedFlag closedFlag
        symbol frequency start offset).count ClientCall.connect = 0 ∧
    StdQuotes.bars_trace gf gsm hasClosedFlag closedFlag
        symbol frequency start offset =
      [ClientCall.get_security_bars
        (StdQuotes.bars gf gsm symbol frequency start offset)] ∧
    (BaseQuotes.closed hasClosedFlag closedFlag = true →
      BaseQuotes.reconnect hasClosedFlag closedFlag = [ClientCall.connect]) ∧
    (BaseQuotes.closed hasClosedFlag closedFlag = false →
      BaseQuotes.reconnect hasClosedFlag closedFlag = []) := by
  refine ⟨rfl, rfl, ?_, ?_⟩
  · intro h
    simp [BaseQuotes.reconnect, h]
  · intro h
    simp [BaseQuotes.reconnect, h]

/-- C5 witness: reconnect on a session whose closed flag is set issues the
connect call. -/
theorem C5_witness :
    BaseQuotes.reconnect true true = [ClientCall.connect] :=
  (C5_theorem (fun x => x) (fun _ => 0) true true "000001" 9 0 800).2.2.1 rfl

/-- C10: for every falsy symbols argument (None, empty string or empty
list), StdQuotes.quotes returns the empty Table (to_data None) with no
protocol-client call made. -/
theorem C10_theorem
    (get_stock_markets : List String → Except Unit (List (ℤ × String)))
    (client_quotes : List (ℤ × String) → Except Unit (Option (List Row)))
    (symbol : PySymbols) (h : pyFalsySymbols symbol = true) :
    StdQuotes.quotes get_stock_markets client_quotes symbol =
      ([], Table.mk [] []) := by
  unfold StdQuotes.quotes
  rw [h]
  rfl

/-- C10 witness: quotes with the empty-string symbol returns the empty table
and an empty client trace. -/
theorem C10_witness :
    StdQuotes.quotes (fun _ => .ok []) (fun _ => .ok none) (PySymbols.str "") =
      ([], Table.mk [] []) :=
  C10_theorem (fun _ => .ok []) (fun _ => .ok none) (PySymbols.str "") rfl

theorem ok_bind {ε α β : Type} (a : α) (f : α → Except ε β) :
    (Except.ok a : Except ε α) >>= f = f a := rfl

theorem pdConcat_pair (a b : Table) :
    ∃ t, pdConcat [some a, some b] = .ok t ∧ t.rows = a.rows ++ b.rows := by
  refine ⟨_, rfl, ?_⟩
  simp

theorem pdConcat_none_some (a : Table) :
    ∃ t, pdConcat [none, some a] = .ok t ∧ t.rows = a.rows := by
  refine ⟨_, rfl, ?_⟩
  simp

theorem stocks_fold (client : HqClient) (market : ℤ) (starts : List ℕ)
    (hs : ∀ s ∈ starts, 1 < s) (acc : Table) :
    ∃ t, starts.foldl (stocksStep client market) (.ok (some acc)) = .ok (some t) ∧
      t.rows = acc.rows ++
        (starts.map (fun s => client.get_security_list market s)).flatten := by
  induction starts generalizing acc with
  | nil => exact ⟨acc, rfl, by simp⟩
  | cons s ss ih =>
    have hs1 : 1 < s := hs s (by simp)
    obtain ⟨t1, ht1, hrows1⟩ :=
      pdConcat_pair acc (to_data (some (client.get_security_list market s)))
    have hstep : stocksStep client market (.ok (some acc)) s = .ok (some t1) := by
      simp only [stocksStep, ok_bind, if_pos hs1, ht1]
      rfl
    rw [List.foldl_cons, hstep]
    obtain ⟨t2, ht2, hrows2⟩ := ih (fun x hx => hs x (List.mem_cons_of_mem s hx)) t1
    refine ⟨t2, ht2, ?_⟩
    rw [hrows2, hrows1]
    simp [to_data]

theorem stocks_eq (client : HqClient) (market : ℤ) (hm : market = 0 ∨ market = 1)
    (hc : 0 < client.get_security_count market) :
    ∃ t, StdQuotes.stocks client market = .ok (some t) ∧
      t.rows = ((pageStarts (client.get_security_count market)).map
        (fun s => client.get_security_list market s)).flatten := by
  have hm2 : market = 0 ∨ market = 1 ∨ market = 2 := by tauto
  obtain ⟨q, hq⟩ :
      ∃ q, ((client.get_security_count market).toNat + 999) / 1000 = q + 1 := by
    refine ⟨((client.get_security_count market).toNat + 999) / 1000 - 1, ?_⟩
    omega
  have hps : pageStarts (client.get_security_count market) =
      0 :: (List.range q).map (fun k => 1000 * (k + 1)) := by
    unfold pageStarts
    rw [hq, List.range_succ_eq_map]
    simp [List.map_map, Function.comp_def, Nat.succ_eq_add_one]
  have hsc : StdQuotes.stock_count client market =
      .ok (client.get_security_count market) := by
    unfold StdQuotes.stock_count
    rw [if_pos hm2]
  simp only [StdQuotes.stocks, if_pos hm, hsc, ok_bind, if_pos hc]
  rw [hps, List.foldl_cons]
  have hstep0 : stocksStep client market (.ok none) 0 =
      .ok (some (to_data (some (client.get_security_list market 0)))) := rfl
  rw [hstep0]
  have hgt : ∀ x ∈ (List.range q).map (fun k => 1000 * (k + 1)), 1 < x := by
    intro x hx
    obtain ⟨k, _, rfl⟩ := List.mem_map.mp hx
    omega
  obtain ⟨t, ht, hr⟩ := stocks_fold client market _ hgt
    (to_data (some (client.get_security_list market 0)))
  refine ⟨t, ht, ?_⟩
  rw [hr]
  simp [to_data]

theorem sum_pageStarts (c : ℤ) (hc : 0 < c) :
    ((pageStarts c).map (fun s => min 1000 (c.toNat - s))).sum = c.toNat := by
  obtain ⟨q, hq⟩ : ∃ q, (c.toNat + 999) / 1000 = q + 1 := by
    refine ⟨(c.toNat + 999) / 1000 - 1, ?_⟩
    omega
  have hb : 1000 * q + 1 ≤ c.toNat ∧ c.toNat ≤ 1000 * q + 1000 := by omega
  unfold pageStarts
  rw [hq, List.range_succ, List.map_append, List.map_append, List.sum_append,
    List.map_map, List.map_map]
  have hconst : (List.range q).map
      ((fun s => min 1000 (c.toNat - s)) ∘ (fun k => 1000 * k)) =
      List.replicate q 1000 := by
    refine List.eq_replicate_iff.mpr ⟨by simp, ?_⟩
    intro b hb2
    obtain ⟨k, hk, rfl⟩ := List.mem_map.mp hb2
    rw [List.mem_range] at hk
    simp only [Function.comp_apply]
    omega
  rw [hconst, List.sum_replicate, smul_eq_mul]
  simp only [List.map_cons, List.map_nil, List.sum_cons, List.sum_nil,
    Function.comp_apply]
  omega

/-- C3 counterexample: with a client whose market-0 (SZ) list is one SZ row
and market-1 (SH) list one SH row, stock_all returns the SZ row first — not
the claimed stocks(SH)-then-stocks(SZ) order. -/
theorem C3_counterexample :
    StdQuotes.stocks
        ⟨fun _ => 1, fun m _ => [[("m", if m = 1 then "SH" else "SZ")]]⟩
        MARKET_SH = .ok (some ⟨["m"], [[("m", "SH")]]⟩) ∧
    StdQuotes.stocks
        ⟨fun _ => 1, fun m _ => [[("m", if m = 1 then "SH" else "SZ")]]⟩
        MARKET_SZ = .ok (some ⟨["m"], [[("m", "SZ")]]⟩) ∧
    StdQuotes.stock_all
        ⟨fun _ => 1, fun m _ => [[("m", if m = 1 then "SH" else "SZ")]]⟩ =
      .ok ⟨["m"], [[("m", "SZ")], [("m", "SH")]]⟩ ∧
    ([[("m", "SZ")], [("m", "SH")]] : List Row) ≠
      [[("m", "SH")], [("m", "SZ")]] :=
  ⟨rfl, rfl, rfl, by decide⟩

/-- C3 (amended): stock_all concatenates stocks(MARKET_SZ = 0) first and
stocks(MARKET_SH = 1) second — the claim's SH-before-SZ order is reversed —
preserving each sub-call's row order; and when each page carries the
min(1000, remaining) rows implied by stock_count, the total row count is
stock_count(SZ) + stock_count(SH). -/
theorem C3_theorem (client : HqClient)
    (hc0 : 0 < client.get_security_count MARKET_SZ)
    (hc1 : 0 < client.get_security_count MARKET_SH)
    (hp : ∀ m : ℤ, m = 0 ∨ m = 1 →
      ∀ s ∈ pageStarts (client.get_security_count m),
        (client.get_security_list m s).length =
          min 1000 ((client.get_security_count m).toNat - s)) :
    ∃ t0 t1 t, StdQuotes.stocks client MARKET_SZ = .ok (some t0) ∧
      StdQuotes.stocks client MARKET_SH = .ok (some t1) ∧
      StdQuotes.stock_all client = .ok t ∧
      t.rows = t0.rows ++ t1.rows ∧
      t.rows.length = (client.get_security_count MARKET_SZ).toNat +
        (client.get_security_count MARKET_SH).toNat := by
  simp only [MARKET_SZ, MARKET_SH] at *
  obtain ⟨t0, h0, hr0⟩ := stocks_eq client 0 (Or.inl rfl) hc0
  obtain ⟨t1, h1, hr1⟩ := stocks_eq client 1 (Or.inr rfl) hc1
  obtain ⟨ta, hta, hra⟩ := pdConcat_none_some t0
  obtain ⟨tb, htb, hrb⟩ := pdConcat_pair ta t1
  have hall : StdQuotes.stock_all client = .ok tb := by
    simp only [StdQuotes.stock_all, h0, ok_bind, hta, h1, htb]
    rfl
  have hlen : ∀ m : ℤ, m = 0 ∨ m = 1 →
      (((pageStarts (client.get_security_count m)).map
        (fun s => client.get_security_list m s)).flatten).length =
      (client.get_security_count m).toNat := by
    intro m hm
    rw [List.length_flatten, List.map_map]
    have hcm : 0 < client.get_security_count m := by
      rcases hm with rfl | rfl
      · exact hc0
      · exact hc1
    calc ((pageStarts (client.get_security_count m)).map
            (List.length ∘ fun s => client.get_security_list m s)).sum
        = ((pageStarts (client.get_security_count m)).map
            (fun s => min 1000 ((client.get_security_count m).toNat - s))).sum := by
          refine congrArg List.sum (List.map_congr_left ?_)
          intro s hsmem
          exact hp m hm s hsmem
      _ = (client.get_security_count m).toNat := sum_pageStarts _ hcm
  refine ⟨t0, t1, tb, h0, h1, hall, ?_, ?_⟩
  · rw [hrb, hra]
  · rw [hrb, hra, List.length_append, hr0, hr1, hlen 0 (Or.inl rfl),
      hlen 1 (Or.inr rfl)]

/-- C3 witness: the amended statement at the concrete one-row-per-market
client. -/
theorem C3_witness :
    ∃ t0 t1 t, StdQuotes.stocks
        ⟨fun _ => 1, fun m _ => [[("m", if m = 1 then "SH" else "SZ")]]⟩
        MARKET_SZ = .ok (some t0) ∧
      StdQuotes.stocks
        ⟨fun _ => 1, fun m _ => [[("m", if m = 1 then "SH" else "SZ")]]⟩
        MARKET_SH = .ok (some t1) ∧
      StdQuotes.stock_all
        ⟨fun _ => 1, fun m _ => [[("m", if m = 1 then "SH" else "SZ")]]⟩ = .ok t ∧
      t.rows = t0.rows ++ t1.rows ∧
      t.rows.length =
        ((⟨fun _ => 1, fun m _ => [[("m", if m = 1 then "SH" else "SZ")]]⟩ :
          HqClient).get_security_count MARKET_SZ).toNat +
        ((⟨fun _ => 1, fun m _ => [[("m", if m = 1 then "SH" else "SZ")]]⟩ :
          HqClient).get_security_count MARKET_SH).toNat := by
  refine C3_theorem _ (by decide) (by decide) ?_
  intro m hm s hs
  rcases hm with rfl | rfl <;>
  · simp only [pageStarts] at hs
    norm_num at hs
    subst hs
    decide

/-- C4: the retry decorator wrapped around every ExtQuotes operation makes
at most 3 attempts, each inter-attempt wait drawn uniformly from [1, 10];
a call raising a (transient) exception on attempts 1-2 and returning a
non-empty result on attempt 3 yields attempt 3's result; a call judged
empty by check_empty on all 3 attempts yields the last (empty) result
without raising. -/
theorem C4_theorem (f : ℕ → Outcome RVal) (rng : ℕ → ℚ)
    (hr : ∀ i, 0 ≤ rng i ∧ rng i < 1) :
    (extRetry f check_empty rng).1 ≤ 3 ∧
    (∀ w ∈ (extRetry f check_empty rng).2.1, 1 ≤ w ∧ w ≤ 10) ∧
    (∀ v, f 1 = .exc → f 2 = .exc → f 3 = .ok v → check_empty v = false →
      extRetry f check_empty rng =
        (3, [waitRandom 1 10 (rng 1), waitRandom 1 10 (rng 2)], .ok v)) ∧
    (∀ v1 v2 v3, f 1 = .ok v1 → f 2 = .ok v2 → f 3 = .ok v3 →
      check_empty v1 = true → check_empty v2 = true → check_empty v3 = true →
      (extRetry f check_empty rng).1 = 3 ∧
      (extRetry f check_empty rng).2.2 = .ok v3) := by
  have hw : ∀ i, 1 ≤ waitRandom 1 10 (rng i) ∧ waitRandom 1 10 (rng i) ≤ 10 := by
    intro i
    obtain ⟨h0, h1⟩ := hr i
    have hnn : 0 ≤ rng i * (10 - 1 : ℚ) := mul_nonneg h0 (by norm_num)
    have hub : rng i * (10 - 1 : ℚ) ≤ 1 * 9 :=
      mul_le_mul (le_of_lt h1) (by norm_num) (by norm_num) (by norm_num)
    unfold waitRandom
    constructor <;> linarith
  have h12 : retryLoop f check_empty rng 1 2 =
      if needsRetry check_empty (f 1) then
        ((retryLoop f check_empty rng 2 1).1,
          waitRandom 1 10 (rng 1) :: (retryLoop f check_empty rng 2 1).2.1,
          (retryLoop f check_empty rng 2 1).2.2)
      else (1, [], f 1) := rfl
  have h21 : retryLoop f check_empty rng 2 1 =
      if needsRetry check_empty (f 2) then
        ((retryLoop f check_empty rng 3 0).1,
          waitRandom 1 10 (rng 2) :: (retryLoop f check_empty rng 3 0).2.1,
          (retryLoop f check_empty rng 3 0).2.2)
      else (2, [], f 2) := rfl
  have h30 : retryLoop f check_empty rng 3 0 = (3, [], f 3) := rfl
  have hcases :
      (needsRetry check_empty (f 1) = false ∧
        extRetry f check_empty rng = (1, [], f 1)) ∨
      (needsRetry check_empty (f 1) = true ∧ needsRetry check_empty (f 2) = false ∧
        extRetry f check_empty rng = (2, [waitRandom 1 10 (rng 1)], f 2)) ∨
      (needsRetry check_empty (f 1) = true ∧ needsRetry check_empty (f 2) = true ∧
        extRetry f check_empty rng =
          (3, [waitRandom 1 10 (rng 1), waitRandom 1 10 (rng 2)], f 3)) := by
    cases hb1 : needsRetry check_empty (f 1) with
    | false => exact Or.inl ⟨rfl, by simp [extRetry, h12, hb1]⟩
    | true =>
      cases hb2 : needsRetry check_empty (f 2) with
      | false =>
        exact Or.inr (Or.inl ⟨rfl, rfl, by simp [extRetry, h12, h21, hb1, hb2]⟩)
      | true =>
        exact Or.inr (Or.inr ⟨rfl, rfl, by simp [extRetry, h12, h21, h30, hb1, hb2]⟩)
  refine ⟨?_, ?_, ?_, ?_⟩
  · rcases hcases with ⟨_, hE⟩ | ⟨_, _, hE⟩ | ⟨_, _, hE⟩ <;> rw [hE] <;> norm_num
  · rcases hcases with ⟨_, hE⟩ | ⟨_, _, hE⟩ | ⟨_, _, hE⟩ <;> rw [hE] <;> intro w hwmem
    · simp at hwmem
    · simp at hwmem
      subst hwmem
      exact hw 1
    · simp at hwmem
      rcases hwmem with rfl | rfl
      · exact hw 1
      · exact hw 2
  · intro v h1 h2 h3 hne
    rcases hcases with ⟨hb1, _⟩ | ⟨_, hb2, _⟩ | ⟨_, _, hE⟩
    · rw [h1] at hb1
      simp [needsRetry] at hb1
    · rw [h2] at hb2
      simp [needsRetry] at hb2
    · rw [hE, h3]
  · intro v1 v2 v3 h1 h2 h3 he1 he2 he3
    rcases hcases with ⟨hb1, _⟩ | ⟨_, hb2, _⟩ | ⟨_, _, hE⟩
    · rw [h1] at hb1
      simp [needsRetry, he1] at hb1
    · rw [h2] at hb2
      simp [needsRetry, he2] at hb2
    · rw [hE, h3]
      exact ⟨rfl, rfl⟩

/-- C4 witness: the attempt bound at a concrete always-raising call. -/
theorem C4_witness :
    (extRetry (fun _ => Outcome.exc) check_empty (fun _ => (0 : ℚ))).1 ≤ 3 :=
  (C4_theorem (fun _ => Outcome.exc) (fun _ => (0 : ℚ))
    (fun _ => ⟨le_refl 0, by norm_num⟩)).1

theorem clampDiscount28 (pe t : ℤ) :
    ((discount28 (if 0 ≤ pe - t then 0 else (pe - t).natAbs) : ℕ) : ℤ) =
      specDiscount28 (daysSince t pe) := by
  unfold discount28 specDiscount28 daysSince
  split_ifs with h <;> omega

theorem clampDiscount35 (pe t : ℤ) :
    ((discount35 (if 0 ≤ pe - t then 0 else (pe - t).natAbs) : ℕ) : ℤ) =
      specDiscount35 (daysSince t pe) := by
  unfold discount35 specDiscount35 daysSince
  split_ifs with h <;> omega

theorem ceilDiv_eq_ceil (a : ℤ) : ceilDiv a 800 = ⌈(a : ℚ) / 800⌉ := by
  have h := Rat.floor_intCast_div_natCast (-a) 800
  rw [ceilDiv,
    show ((a : ℚ) / 800) = -(((-a : ℤ) : ℚ) / ((800 : ℕ) : ℚ)) by push_cast; ring,
    Int.ceil_neg, h]
  norm_num

theorem get_k_data_requests (gsm parseDays : String → ℤ) (today : ℤ)
    (client : KClient) (code s e : String) :
    (StdQuotes.get_k_data gsm parseDays today client code s e).requests =
      (List.range ((ceilDiv (specDiscount35 (daysSince today (parseDays s)) -
          specDiscount28 (daysSince today (parseDays e))) 800).toNat)).map
        (fun (i : ℕ) =>
          { category := 9, market := gsm code, code := code,
            start := specDiscount28 (daysSince today (parseDays e)) + (i : ℤ) * 800,
            count := 800 }) := by
  simp only [StdQuotes.get_k_data]
  rw [clampDiscount28, clampDiscount35]

theorem get_k_data_raw (gsm parseDays : String → ℤ) (today : ℤ)
    (client : KClient) (code s e : String) :
    (StdQuotes.get_k_data gsm parseDays today client code s e).raw =
      ((List.range ((ceilDiv (specDiscount35 (daysSince today (parseDays s)) -
          specDiscount28 (daysSince today (parseDays e))) 800).toNat)).map
        (fun (i : ℕ) => client.get_security_bars 9 (gsm code) code
          (specDiscount28 (daysSince today (parseDays e)) + (i : ℤ) * 800) 800)).flatten := by
  simp only [StdQuotes.get_k_data]
  rw [clampDiscount28, clampDiscount35]
  simp [to_df, List.map_map, Function.comp_def]

/-- C7: get_k_data computes daysSinceEnd = max(0, today − endDate) and
daysSinceStart = max(0, today − startDate), discounts them by
int(daysSinceEnd / 2.8) and int(daysSinceStart / 3.5), fetches exactly
ceil((daysSinceStart − daysSinceEnd) / 800) pages (a negative ceiling means
an empty range, i.e. the count is clamped at 0), where page i requests 800
daily-frequency (category 9) bars at offset daysSinceEnd + i*800, and the
raw rows are the pages' rows concatenated in fetch order. -/
theorem C7_theorem (gsm parseDays : String → ℤ) (today : ℤ) (client : KClient)
    (code s e : String) :
    ((StdQuotes.get_k_data gsm parseDays today client code s e).requests.length : ℤ) =
      max 0 (ceilDiv (specDiscount35 (daysSince today (parseDays s)) -
        specDiscount28 (daysSince today (parseDays e))) 800) ∧
    (0 ≤ ceilDiv (specDiscount35 (daysSince today (parseDays s)) -
        specDiscount28 (daysSince today (parseDays e))) 800 →
      ((StdQuotes.get_k_data gsm parseDays today client code s e).requests.length : ℤ) =
        ceilDiv (specDiscount35 (daysSince today (parseDays s)) -
          specDiscount28 (daysSince today (parseDays e))) 800) ∧
    ceilDiv (specDiscount35 (daysSince today (parseDays s)) -
        specDiscount28 (daysSince today (parseDays e))) 800 =
      ⌈((specDiscount35 (daysSince today (parseDays s)) -
        specDiscount28 (daysSince today (parseDays e)) : ℤ) : ℚ) / 800⌉ ∧
    (∀ (i : ℕ)
      (hi : i < (StdQuotes.get_k_data gsm parseDays today client code s e).requests.length),
      (StdQuotes.get_k_data gsm parseDays today client code s e).requests.get ⟨i, hi⟩ =
        { category := 9, market := gsm code, code := code,
          start := specDiscount28 (daysSince today (parseDays e)) + (i : ℤ) * 800,
          count := 800 : KBarsReq }) ∧
    (StdQuotes.get_k_data gsm parseDays today client code s e).raw =
      ((List.range
          (StdQuotes.get_k_data gsm parseDays today client code s e).requests.length).map
        (fun (i : ℕ) => client.get_security_bars 9 (gsm code) code
          (specDiscount28 (daysSince today (parseDays e)) + (i : ℤ) * 800) 800)).flatten := by
  have hreq := get_k_data_requests gsm parseDays today client code s e
  have hraw := get_k_data_raw gsm parseDays today client code s e
  have hlen : (StdQuotes.get_k_data gsm parseDays today client code s e).requests.length =
      (ceilDiv (specDiscount35 (daysSince today (parseDays s)) -
        specDiscount28 (daysSince today (parseDays e))) 800).toNat := by
    rw [hreq, List.length_map, List.length_range]
  refine ⟨?_, ?_, ceilDiv_eq_ceil _, ?_, ?_⟩
  · rw [hlen, Int.toNat_eq_max, max_comm]
  · intro h
    rw [hlen]
    omega
  · intro i hi
    rw [List.get_eq_getElem]
    simp only [hreq, List.getElem_map, List.getElem_range]
  · rw [hraw, hlen]

/-- C7 witness: a concrete run (today 100, start 0, end 31 day ordinals)
fetching exactly one page. -/
theorem C7_witness :
    ((StdQuotes.get_k_data (fun _ => 0)
        (fun s => if s = "2020-01-01" then 0 else 31) 100
        ⟨fun _ _ _ _ _ => [[("datetime", "2020-01-05 10:00"), ("open", "1")]]⟩
        "000001" "2020-01-01" "2020-02-01").requests.length : ℤ) =
      ceilDiv (specDiscount35 (daysSince 100
          ((fun s => if s = "2020-01-01" then 0 else 31) "2020-01-01")) -
        specDiscount28 (daysSince 100
          ((fun s => if s = "2020-01-01" then 0 else 31) "2020-02-01"))) 800 :=
  (C7_theorem (fun _ => 0) (fun s => if s = "2020-01-01" then 0 else 31) 100
    ⟨fun _ _ _ _ _ => [[("datetime", "2020-01-05 10:00"), ("open", "1")]]⟩
    "000001" "2020-01-01" "2020-02-01").2.1 (by decide)

/-- C2: the code evaluated at a failing input: startDate 2023-01-11 is one
calendar day after endDate 2023-01-10 (today is day 12, the dates parse to
days 11 and 10), the discounted deltas give pageCount ceil(−1/800) = 0, so
no pages are fetched and `pd.concat` of the empty list raises
ValueError("No objects to concatenate") — get_k_data errors instead of
returning an empty table. -/
theorem C2_code_eval :
    pyLt "2023-01-10" "2023-01-11" = true ∧
    (StdQuotes.get_k_data (fun _ => 0)
        (fun s => if s = "2023-01-11" then 11 else 10) 12
        ⟨fun _ _ _ _ _ => []⟩ "000001" "2023-01-11" "2023-01-10").requests = [] ∧
    (StdQuotes.get_k_data (fun _ => 0)
        (fun s => if s = "2023-01-11" then 11 else 10) 12
        ⟨fun _ _ _ _ _ => []⟩ "000001" "2023-01-11" "2023-01-10").result =
      .error "No objects to concatenate" :=
  ⟨by decide, rfl, rfl⟩

theorem getCol_setCol_self (r : Row) (c v : String) :
    getCol (setCol r c v) c = v := by
  induction r with
  | nil => simp [setCol, getCol]
  | cons p ps ih =>
    cases h : (p.1 == c) with
    | true => simp [setCol, h, getCol]
    | false => simp [setCol, h, getCol, ih]

theorem getCol_setCol_ne (r : Row) (c c2 v : String) (hne : c2 ≠ c) :
    getCol (setCol r c v) c2 = getCol r c2 := by
  have hcc : (c == c2) = false := beq_eq_false_iff_ne.mpr (Ne.symm hne)
  induction r with
  | nil => simp [setCol, getCol, hcc]
  | cons p ps ih =>
    cases h : (p.1 == c) with
    | true =>
      have hp : p.1 = c := by simpa using h
      simp [setCol, h, getCol, hcc, hp]
    | false => simp [setCol, h, getCol, ih]

theorem getCol_dropCols (r : Row) (cs : List String) (c : String)
    (h : cs.contains c = false) :
    getCol (dropCols r cs) c = getCol r c := by
  induction r with
  | nil => rfl
  | cons p ps ih =>
    rw [dropCols, List.filter_cons]
    cases hp : (p.1 == c) with
    | true =>
      have hpc : p.1 = c := by simpa using hp
      have hkeep : (!cs.contains p.1) = true := by rw [hpc, h]; rfl
      rw [if_pos hkeep]
      simp [getCol, hp]
    | false =>
      cases hk : (!cs.contains p.1) with
      | true =>
        rw [if_pos rfl]
        simp only [getCol, hp, Bool.false_eq_true, if_false]
        exact ih
      | false =>
        rw [if_neg (by simp)]
        show getCol (dropCols ps cs) c = _
        rw [ih]
        simp [getCol, hp]

theorem hasCol_dropCols (r : Row) (cs : List String) (c : String)
    (h : cs.contains c = true) :
    hasCol (dropCols r cs) c = false := by
  induction r with
  | nil => rfl
  | cons p ps ih =>
    rw [dropCols, List.filter_cons]
    cases hk : (!cs.contains p.1) with
    | false =>
      rw [if_neg (by simp)]
      exact ih
    | true =>
      rw [if_pos rfl]
      have hp : (p.1 == c) = false := by
        cases hpc : (p.1 == c) with
        | false => rfl
        | true =>
          have hpc2 : p.1 = c := by simpa using hpc
          rw [hpc2, h] at hk
          simp at hk
      simp only [hasCol, hp, Bool.false_or]
      exact ih

theorem getCol_processRow_date (code : String) (r : Row) :
    getCol (processRow code r) "date" = (getCol r "datetime").take 10 := by
  unfold processRow assignDateCode
  rw [getCol_dropCols _ _ _ (by decide)]
  rw [getCol_setCol_ne _ _ _ _ (by decide)]
  rw [getCol_setCol_self]

theorem charsLt_asymm (a b : List Char) (h : charsLt a b = true) :
    charsLt b a = false := by
  induction a generalizing b with
  | nil =>
    cases b with
    | nil => simp [charsLt] at h
    | cons y ys => simp [charsLt]
  | cons x xs ih =>
    cases b with
    | nil => simp [charsLt] at h
    | cons y ys =>
      by_cases h1 : x.toNat < y.toNat
      · have h2 : ¬ y.toNat < x.toNat := by omega
        simp [charsLt, h1, h2]
      · by_cases h2 : y.toNat < x.toNat
        · rw [charsLt, if_neg h1, if_pos h2] at h
          simp at h
        · rw [charsLt, if_neg h1, if_neg h2] at h
          rw [charsLt, if_neg h2, if_neg h1]
          exact ih ys h

theorem charsLt_step (a : List Char) : ∀ b c : List Char,
    charsLt c a = true → charsLt b a = true ∨ charsLt c b = true := by
  induction a with
  | nil =>
    intro b c h
    simp [charsLt] at h
  | cons x xs ih =>
    intro b c h
    cases c with
    | nil =>
      cases b with
      | nil => left; simp [charsLt]
      | cons y ys => right; simp [charsLt]
    | cons z zs =>
      cases b with
      | nil => left; simp [charsLt]
      | cons y ys =>
        by_cases hzx : z.toNat < x.toNat
        · by_cases hyx : y.toNat < x.toNat
          · left
            simp [charsLt, hyx]
          · right
            have hzy : z.toNat < y.toNat := by omega
            simp [charsLt, hzy]
        · by_cases hxz : x.toNat < z.toNat
          · rw [charsLt, if_neg hzx, if_pos hxz] at h
            simp at h
          · rw [charsLt, if_neg hzx, if_neg hxz] at h
            by_cases hyx : y.toNat < x.toNat
            · left
              simp [charsLt, hyx]
            · by_cases hxy : x.toNat < y.toNat
              · right
                have hzy : z.toNat < y.toNat := by omega
                simp [charsLt, hzy]
              · rcases ih ys zs h with hl | hr
                · left
                  rw [charsLt, if_neg hyx, if_neg hxy]
                  exact hl
                · right
                  have hzy : ¬ z.toNat < y.toNat := by omega
                  have hyz : ¬ y.toNat < z.toNat := by omega
                  rw [charsLt, if_neg hzy, if_neg hyz]
                  exact hr

theorem pyLe_trans (a b c : String) (hab : pyLe a b = true) (hbc : pyLe b c = true) :
    pyLe a c = true := by
  unfold pyLe at *
  cases hca : charsLt c.data a.data with
  | false => rfl
  | true =>
    rcases charsLt_step a.data b.data c.data hca with h1 | h2
    · rw [h1] at hab
      simp at hab
    · rw [h2] at hbc
      simp at hbc

theorem pyLe_of_not_pyLe (a b : String) (h : ¬ pyLe a b = true) : pyLe b a = true := by
  unfold pyLe at *
  cases hx : charsLt b.data a.data with
  | false => rw [hx] at h; simp at h
  | true => rw [charsLt_asymm _ _ hx]; rfl

theorem mem_insertByDate (r a : Row) (l : List Row) :
    a ∈ insertByDate r l ↔ a = r ∨ a ∈ l := by
  induction l with
  | nil => simp [insertByDate]
  | cons x xs ih =>
    simp only [insertByDate]
    split_ifs with hle
    · simp [List.mem_cons]
    · simp only [List.mem_cons, ih]
      tauto

theorem sorted_insertByDate (r : Row) (l : List Row)
    (h : List.Sorted (fun a b : Row => pyLe (getCol a "date") (getCol b "date") = true) l) :
    List.Sorted (fun a b : Row => pyLe (getCol a "date") (getCol b "date") = true)
      (insertByDate r l) := by
  induction l with
  | nil => simp [insertByDate]
  | cons x xs ih =>
    rw [List.sorted_cons] at h
    obtain ⟨hx, hxs⟩ := h
    simp only [insertByDate]
    split_ifs with hle
    · rw [List.sorted_cons]
      refine ⟨?_, ?_⟩
      · intro b hb
        rcases List.mem_cons.mp hb with rfl | hb2
        · exact hle
        · exact pyLe_trans _ _ _ hle (hx b hb2)
      · rw [List.sorted_cons]
        exact ⟨hx, hxs⟩
    · rw [List.sorted_cons]
      refine ⟨?_, ih hxs⟩
      intro b hb
      rcases (mem_insertByDate r b xs).mp hb with rfl | hb2
      · exact pyLe_of_not_pyLe _ _ hle
      · exact hx b hb2

theorem sorted_sortByDate (l : List Row) :
    List.Sorted (fun a b : Row => pyLe (getCol a "date") (getCol b "date") = true)
      (sortByDate l) := by
  induction l with
  | nil => simp [sortByDate]
  | cons x xs ih => exact sorted_insertByDate x (sortByDate xs) ih

theorem mem_sortByDate (a : Row) (l : List Row) :
    a ∈ sortByDate l ↔ a ∈ l := by
  induction l with
  | nil => simp [sortByDate]
  | cons x xs ih =>
    show a ∈ insertByDate x (sortByDate xs) ↔ _
    rw [mem_insertByDate]
    simp only [List.mem_cons, ih]

theorem pdConcat_map_some_ok (ts : List Table) (t : Table)
    (h : pdConcat (ts.map some) = .ok t) :
    t.rows = (ts.map Table.rows).flatten := by
  cases ts with
  | nil => simp [pdConcat] at h
  | cons d ds =>
    have hfm : ((d :: ds).map some).filterMap id = d :: ds := by simp
    unfold pdConcat at h
    rw [hfm] at h
    simp only [List.map_cons, List.isEmpty_cons, Bool.false_eq_true, if_false] at h
    rw [Except.ok.injEq] at h
    rw [← h]
    rfl

/-- C8: whenever get_k_data returns a table, every row's date satisfies
startDate ≤ date < endDate (Python string comparison), the rows are sorted
ascending by date, each row is the post-processing of some raw bar row with
its date equal to the first 10 characters of that bar's datetime field, and
the year/month/day/hour/minute/datetime columns are absent from every row. -/
theorem C8_theorem (gsm parseDays : String → ℤ) (today : ℤ) (client : KClient)
    (code s e : String) (t : Table)
    (h : (StdQuotes.get_k_data gsm parseDays today client code s e).result = .ok t) :
    (∀ r ∈ t.rows, pyLe s (getCol r "date") = true ∧ pyLt (getCol r "date") e = true) ∧
    List.Sorted (fun a b : Row => pyLe (getCol a "date") (getCol b "date") = true) t.rows ∧
    (∀ r ∈ t.rows, ∃ r0,
      r0 ∈ (StdQuotes.get_k_data gsm parseDays today client code s e).raw ∧
      r = processRow code r0 ∧
      getCol r "date" = (getCol r0 "datetime").take 10) ∧
    (∀ r ∈ t.rows, ∀ c ∈ droppedCols, hasCol r c = false) := by
  simp only [StdQuotes.get_k_data] at h
  split at h
  · exact absurd h (by simp)
  · rename_i data heq
    rw [Except.ok.injEq] at h
    subst h
    refine ⟨?_, ?_, ?_, ?_⟩
    · intro r hr
      rw [mem_sortByDate] at hr
      have hk := (List.mem_filter.mp hr).2
      simp only [keepRow, Bool.and_eq_true] at hk
      exact hk
    · exact sorted_sortByDate _
    · intro r hr
      rw [mem_sortByDate] at hr
      have hm := (List.mem_filter.mp hr).1
      obtain ⟨r0, hr0, rfl⟩ := List.mem_map.mp hm
      refine ⟨r0, ?_, rfl, getCol_processRow_date code r0⟩
      have hdr := pdConcat_map_some_ok _ _ heq
      have hrw : (StdQuotes.get_k_data gsm parseDays today client code s e).raw =
          data.rows := by
        rw [hdr]
        rfl
      rw [hrw]
      exact hr0
    · intro r hr c hc
      rw [mem_sortByDate] at hr
      have hm := (List.mem_filter.mp hr).1
      obtain ⟨r0, _, rfl⟩ := List.mem_map.mp hm
      unfold processRow
      refine hasCol_dropCols _ _ _ ?_
      simpa using hc

/-- C8 witness: the sorted concrete result of the one-page run whose client
returns two out-of-order bars. -/
theorem C8_witness :
    List.Sorted (fun a b : Row => pyLe (getCol a "date") (getCol b "date") = true)
      (Table.mk ["date", "code"]
        [[("date", "2020-01-05"), ("code", "000001")],
         [("date", "2020-01-20"), ("code", "000001")]]).rows :=
  (C8_theorem (fun _ => 0) (fun s => if s = "2020-01-01" then 0 else 31) 100
    ⟨fun _ _ _ _ _ => [[("datetime", "2020-01-20 15:00"), ("year", "2020")],
                       [("datetime", "2020-01-05 10:00"), ("year", "2020")]]⟩
    "000001" "2020-01-01" "2020-02-01"
    (Table.mk ["date", "code"]
      [[("date", "2020-01-05"), ("code", "000001")],
       [("date", "2020-01-20"), ("code", "000001")]]) rfl).2.1

end Mootdx
